import Mathlib

/-!
Verification development for the r/programmatic Reddit archiver scripts
(`fetch_append_r_programmatic.py` and `fetch_r_programmatic.py`).

The JSON database manipulated by the scripts is modelled by the inductive
type `J` below.  Python dictionaries (as produced by `json.loads`) are
modelled as ordered association lists without duplicate keys; insertion of
an existing key updates the value in place, insertion of a new key appends,
matching CPython dict semantics.  Numbers are modelled by `ℚ` (the scripts
only ever compare, maximise and copy timestamps, so the ordering of the
rationals is the only arithmetic structure used; non-finite floats are not
modelled).  Functions that can raise a Python exception are modelled with
`Option`, `none` standing for a raised exception.  Timestamps such as
`now_iso()` are passed in explicitly as a `now` argument.
-/

/-- JSON values, as produced by `json.loads` in the scripts. -/
inductive J where
  | null
  | bool (b : Bool)
  | num (q : ℚ)
  | str (s : String)
  | arr (elems : List J)
  | obj (fields : List (String × J))

abbrev JObj := List (String × J)

/-- `d.get(key)` on a Python dict (no default): `none` means the key is absent. -/
def dictGet : JObj → String → Option J
  | [], _ => none
  | (k, v) :: rest, key => if k = key then some v else dictGet rest key

/-- `d.get(key, default)` on a Python dict. -/
def dictGetD (l : JObj) (k : String) (d : J) : J := (dictGet l k).getD d

/-- `key in d` on a Python dict. -/
def dictContains : JObj → String → Bool
  | [], _ => false
  | (k, _) :: rest, key => k = key || dictContains rest key

/-- `d[key] = v` on a Python dict: updates in place, appends if absent. -/
def dictSet : JObj → String → J → JObj
  | [], key, v => [(key, v)]
  | (k, w) :: rest, key, v =>
    if k = key then (k, v) :: rest else (k, w) :: dictSet rest key v

/-- `d.setdefault(key, v)` on a Python dict (effect on the dict only). -/
def dictSetdefault (l : JObj) (k : String) (v : J) : JObj :=
  if dictContains l k then l else l ++ [(k, v)]

/-- Python truthiness of a JSON value. -/
def pyTruthy : J → Bool
  | .null => false
  | .bool b => b
  | .num q => q != 0
  | .str s => s != ""
  | .arr xs => !xs.isEmpty
  | .obj kvs => !kvs.isEmpty

/-- Python `len()` of a JSON value; `none` is the `TypeError` raised on
`null`, booleans and numbers. -/
def pyLen : J → Option Nat
  | .str s => some s.length
  | .arr xs => some xs.length
  | .obj kvs => some kvs.length
  | _ => none

/-- Iterating a JSON value with a Python `for` loop: a string yields its
one-character substrings, a dict yields its keys; `none` is the
`TypeError` raised on non-iterable values. -/
def pyIter : J → Option (List J)
  | .str s => some (s.toList.map (fun c => .str (String.singleton c)))
  | .arr xs => some xs
  | .obj kvs => some (kvs.map (fun kv => .str kv.1))
  | _ => none

mutual

/-- Nesting depth of a JSON value (fuel bound for `reprJFuel`). -/
def jDepth : J → Nat
  | .null => 0
  | .bool _ => 0
  | .num _ => 0
  | .str _ => 0
  | .arr xs => jDepthL xs + 1
  | .obj kvs => jDepthO kvs + 1

def jDepthL : List J → Nat
  | [] => 0
  | x :: xs => max (jDepth x) (jDepthL xs)

def jDepthO : List (String × J) → Nat
  | [] => 0
  | kv :: kvs => max (jDepth kv.2) (jDepthO kvs)

end

/-- Bounded-depth `repr`-style rendering used by `pyRepr`.  The fuel is an
upper bound on the nesting depth; `pyRepr` always supplies enough. -/
def reprJFuel (fuel : Nat) (j : J) : String :=
  match j with
  | .null => "None"
  | .bool true => "True"
  | .bool false => "False"
  | .num q => toString q
  | .str s => "'" ++ s ++ "'"
  | .arr xs =>
    match fuel with
    | 0 => ""
    | fuel + 1 => "[" ++ String.intercalate ", " (xs.map (reprJFuel fuel)) ++ "]"
  | .obj kvs =>
    match fuel with
    | 0 => ""
    | fuel + 1 =>
      "\x7b" ++
        String.intercalate ", "
          (kvs.map (fun kv => "'" ++ kv.1 ++ "': " ++ reprJFuel fuel kv.2)) ++
        "\x7d"

/-- Python `repr()` of a JSON value (numeric formatting simplified to the
`ℚ` rendering; string escaping inside `repr` not modelled — the scripts
only ever format scalar fields). -/
def pyRepr (j : J) : String := reprJFuel (jDepth j) j

/-- Python `str()` of a JSON value, as used by f-string interpolation in
the scripts' key construction. -/
def pyStr : J → String
  | .str s => s
  | j => pyRepr j

/-- Whitespace for Python's `str`-mode regex `\s` and `float()` stripping. -/
def isPySpace (c : Char) : Bool :=
  [' ', '\t', '\n', '\r', '\x0b', '\x0c', '\x85', '\xa0', ' ',
   ' ', ' ', ' ', ' ', ' ', ' ', ' ',
   ' ', ' ', ' ', ' ', ' ', ' ', ' ',
   ' ', '　'].contains c

/-- Unsigned digit run: returns the digits consumed and the rest. -/
def spanDigits (cs : List Char) : List Char × List Char :=
  (cs.takeWhile Char.isDigit, cs.dropWhile Char.isDigit)

def digitsToNat (ds : List Char) : Nat :=
  ds.foldl (fun acc c => acc * 10 + (c.toNat - '0'.toNat)) 0

/-- Assemble a decimal literal (sign, integer digits, fraction digits,
decimal exponent) into an exact rational.  Built with `Rat.divInt` over
integer arithmetic so that concrete parses evaluate by `rfl`. -/
def ratOfParts (neg : Bool) (ip fp : List Char) (ex : Int) : ℚ :=
  let n : Nat := digitsToNat ip * 10 ^ fp.length + digitsToNat fp
  let sn : Int := if neg then -(n : Int) else (n : Int)
  if 0 ≤ ex then Rat.divInt (sn * (10 : Int) ^ ex.toNat) ((10 : Int) ^ fp.length)
  else Rat.divInt sn ((10 : Int) ^ fp.length * (10 : Int) ^ (-ex).toNat)

/-- A signed decimal exponent suffix `[eE][+-]?digits` at `r2`: its value
and the rest; no exponent (or one without digits, which a parser must not
consume) yields `0` and `r2` unchanged. -/
def parseExponent (r2 : List Char) : Int × List Char :=
  match r2 with
  | 'e' :: t | 'E' :: t =>
    (match t with
     | '+' :: u =>
       let (ed, r) := spanDigits u
       if ed.isEmpty then ((0 : Int), r2) else ((digitsToNat ed : Int), r)
     | '-' :: u =>
       let (ed, r) := spanDigits u
       if ed.isEmpty then ((0 : Int), r2) else (-(digitsToNat ed : Int), r)
     | _ =>
       let (ed, r) := spanDigits t
       if ed.isEmpty then ((0 : Int), r2) else ((digitsToNat ed : Int), r))
  | _ => ((0 : Int), r2)

/-- Parse `digits [. digits] [e[+-]digits]` (with at least one digit in the
integer or fraction part, `5.`/`.5` both allowed) starting at `cs`, per
the grammar of Python `float()`, into a `ℚ` and the remaining
characters. -/
def parseDecimal (cs : List Char) : Option (ℚ × List Char) :=
  let (ip, r1) := spanDigits cs
  let (fp, r2) :=
    match r1 with
    | '.' :: t => spanDigits t
    | _ => ([], r1)
  if ip.isEmpty ∧ fp.isEmpty then none
  else
    let (ex, r3) := parseExponent r2
    some (ratOfParts false ip fp ex, r3)

/-- Python `float(s)` on a string: strips whitespace, then an optional sign
and a decimal literal.  `none` is the raised `ValueError` (also returned
for the non-finite spellings `inf`/`nan`, which the `ℚ` model cannot
represent). -/
def pyFloatOfStr (s : String) : Option ℚ :=
  let cs := (s.toList.dropWhile isPySpace).reverse.dropWhile isPySpace |>.reverse
  let (sgn, cs1) :=
    match cs with
    | '-' :: t => (true, t)
    | '+' :: t => (false, t)
    | _ => (false, cs)
  match parseDecimal cs1 with
  | some (q, []) => some (if sgn then -q else q)
  | _ => none

/-- Python `float(x)` on a JSON value; `none` is the raised `TypeError`
or `ValueError`. -/
def pyFloat : J → Option ℚ
  | .num q => some q
  | .bool b => some (if b then 1 else 0)
  | .str s => pyFloatOfStr s
  | _ => none

-- ### Constants of `fetch_append_r_programmatic.py`

def SUBREDDIT : String := "programmatic"
def MAX_NEW_TO_PULL : Nat := 1000

/-- `empty_db()` (lines 21-30), with `now_iso()` passed in as `now`. -/
def empty_db (now : String) : J :=
  .obj [("metadata", .obj
          [("source", .str ("Reddit r/" ++ SUBREDDIT)),
           ("scrape_date", .str now),
           ("total_posts", .num 0),
           ("total_comments", .num 0)]),
        ("discussions", .arr [])]

/-- `float(d.get("created_utc", 0.0) or 0.0)` (lines 180, 214): the sort key
and cutoff contribution of a stored record.  `none` models a raised
exception (non-dict record, or a non-numeric string value). -/
def tsKeyRaw (d : J) : Option ℚ :=
  match d with
  | .obj kvs =>
    let v := dictGetD kvs "created_utc" (.num 0)
    pyFloat (if pyTruthy v then v else .num 0)
  | _ => none

/-- One iteration of the cutoff loop (lines 178-184): update the running
maximum with the record's timestamp, swallowing per-record exceptions
(`try/except: pass`). -/
def cutoffStep (c : ℚ) (d : J) : ℚ :=
  match tsKeyRaw d with
  | some ts => if c < ts then ts else c
  | none => c

/-- The cutoff computation of `main` (lines 177-184): the running maximum of
the stored timestamps, starting from `0.0`. -/
def computeCutoff (ds : List J) : ℚ :=
  ds.foldl cutoffStep 0

/-- `post_key_from_existing` (lines 124-128); `none` is the `AttributeError`
raised when the record is not a dict. -/
def post_key_from_existing (d : J) : Option String :=
  match d with
  | .obj kvs =>
    let pid := dictGetD kvs "id" .null
    if pyTruthy pid then some ("id:" ++ pyStr pid)
    else some ("url:" ++ pyStr (dictGetD kvs "url" (.str "")) ++
               "|ts:" ++ pyStr (dictGetD kvs "created_utc" (.str "")))
  | _ => none

/-- `set(post_key_from_existing(d) for d in discussions)` (line 176),
keeping the traversal order. -/
def keysOf : List J → Option (List String)
  | [] => some []
  | d :: rest =>
    match post_key_from_existing d, keysOf rest with
    | some k, some ks => some (k :: ks)
    | _, _ => none

-- ### Fetched submissions and their serialization

structure SubComment where
  author : Option String
  body : String
  score : Int
  created_utc : ℚ
deriving DecidableEq

/-- One PRAW submission as consumed by the append script.  `created_utc`
is the value of `float(getattr(submission, "created_utc", 0.0) or 0.0)`;
`comments` is the flattened comment list `submission.comments.list()`
would yield, and `comments_ok` is false when the comment fetch raises
(the `except` branch of `serialize_submission`). -/
structure Submission where
  sid : String
  title : String
  author : Option String
  score : Int
  url : String
  permalink : String
  created_utc : ℚ
  selftext : String
  num_comments : Int
  over_18 : Bool
  link_flair_text : Option String
  comments : List SubComment
  comments_ok : Bool
deriving DecidableEq

def optStrJ : Option String → J
  | none => .null
  | some s => .str s

def commentJ (c : SubComment) : J :=
  .obj [("author", optStrJ c.author),
        ("body", .str c.body),
        ("score", .num c.score),
        ("created_utc", .num c.created_utc)]

/-- `serialize_submission` (lines 130-162). -/
def serialize_submission (s : Submission) : J :=
  .obj [("id", .str s.sid),
        ("title", .str s.title),
        ("author", optStrJ s.author),
        ("score", .num s.score),
        ("url", .str s.url),
        ("permalink", .str ("https://www.reddit.com" ++ s.permalink)),
        ("created_utc", .num s.created_utc),
        ("content", .str s.selftext),
        ("num_comments", .num s.num_comments),
        ("over_18", .bool s.over_18),
        ("link_flair_text", optStrJ s.link_flair_text),
        ("comments", .arr (if s.comments_ok then s.comments.map commentJ else []))]

/-- The fetch-loop key (line 199):
`f"id:{submission.id}" if submission.id else f"url:{submission.url}|ts:{created}"`. -/
def subKey (s : Submission) : String :=
  if s.sid != "" then "id:" ++ s.sid
  else "url:" ++ s.url ++ "|ts:" ++ toString s.created_utc

/-- The fetch loop of `main` (lines 194-204): walks the fetched stream,
breaking at the first item at or below a truthy (non-zero) cutoff,
skipping items whose key is already seen, and serializing the rest.
Returns `new_items`. -/
def fetchLoop (cutoff : ℚ) (seen : List String) : List Submission → List J
  | [] => []
  | s :: rest =>
    if cutoff ≠ 0 ∧ s.created_utc ≤ cutoff then []
    else if subKey s ∈ seen then fetchLoop cutoff seen rest
    else serialize_submission s :: fetchLoop cutoff (subKey s :: seen) rest

/-- Reference function: the fetch loop with the cutoff early-stop removed
(every item is considered; an item is appended exactly when its identity
key is unseen). -/
def collectAll (seen : List String) : List Submission → List J
  | [] => []
  | s :: rest =>
    if subKey s ∈ seen then collectAll seen rest
    else serialize_submission s :: collectAll (subKey s :: seen) rest

/-- `all(float-key succeeds)`: the list-sort key callable (line 214) raises
on none of the records. -/
def allTsOk : List J → Bool
  | [] => true
  | d :: rest => (tsKeyRaw d).isSome && allTsOk rest

/-- `discussions.sort(key=lambda d: float(d.get("created_utc", 0.0) or 0.0))`
(line 214): Python's stable ascending sort by the float key; `none` is the
exception raised by the key callable. -/
def sortDiscussions (ds : List J) : Option (List J) :=
  if allTsOk ds then
    some (ds.mergeSort (fun a b => decide ((tsKeyRaw a).getD 0 ≤ (tsKeyRaw b).getD 0)))
  else none

/-- Lines 176-216 of `main`: build the seen-key set and the cutoff, run the
fetch loop over at most `MAX_NEW_TO_PULL` items, and produce the
discussions list that is handed to `save_db` — the loaded list unchanged
when no new items were found, otherwise the deduplicated, extended and
re-sorted list. -/
def runMergePhase (ds : List J) (stream : List Submission) : Option (List J) :=
  match keysOf ds with
  | none => none
  | some seen =>
    let newItems := fetchLoop (computeCutoff ds) seen (stream.take MAX_NEW_TO_PULL)
    if newItems.isEmpty then some ds
    else sortDiscussions (ds ++ newItems)

-- ### save_db

/-- `sum(len(d.get("comments", [])) for d in ...)` (line 114, no isinstance
guard): `none` is the exception raised on a non-dict element or a
non-sized comments value. -/
def totalCommentsOf : List J → Option Nat
  | [] => some 0
  | d :: rest =>
    match d with
    | .obj kvs =>
      match pyLen (dictGetD kvs "comments" (.arr [])), totalCommentsOf rest with
      | some n, some m => some (n + m)
      | _, _ => none
    | _ => none

/-- `save_db` (lines 112-122), with `now_iso()` passed in as `now`.
Returns the JSON document written to the file (the temp-file/rename step
is atomic and content-preserving); `none` is a raised exception. -/
def save_db (db : J) (now : String) : Option J :=
  match db with
  | .obj kvs =>
    let dv := dictGetD kvs "discussions" (.arr [])
    match pyLen dv, pyIter dv with
    | some tp, some xs =>
      match totalCommentsOf xs with
      | some tc =>
        let kvs1 := dictSetdefault kvs "metadata" (.obj [])
        match dictGetD kvs1 "metadata" (.obj []) with
        | .obj mkvs =>
          some (.obj (dictSet kvs1 "metadata" (.obj
            (dictSet
              (dictSet
                (dictSet
                  (dictSet mkvs "source" (.str ("Reddit r/" ++ SUBREDDIT)))
                  "scrape_date" (.str now))
                "total_posts" (.num tp))
              "total_comments" (.num tc)))))
        | _ => none
      | none => none
    | _, _ => none
  | _ => none

-- ### A model of `json.loads`
--
-- The scripts delegate parsing to Python's `json` module; the parser below
-- models its grammar: any top-level value, strict strings (control
-- characters rejected, the standard escapes and `\uXXXX` with surrogate
-- pairing), numbers without leading zeros, no trailing commas.  Later
-- duplicate object keys overwrite earlier ones, as in a Python dict.
-- (Non-finite spellings `NaN`/`Infinity` and lone surrogates are outside
-- the `ℚ`/`Char` model and are rejected instead.)

def isJsonWs (c : Char) : Bool := c = ' ' || c = '\t' || c = '\n' || c = '\r'

def skipWs : List Char → List Char
  | [] => []
  | c :: cs => if isJsonWs c then skipWs cs else c :: cs

/-- JSON number: `-? (0 | [1-9][0-9]*) (. [0-9]+)? ([eE][+-]?[0-9]+)?`,
greedy, returning the value and the unconsumed rest. -/
def parseJsonNumber (cs : List Char) : Option (ℚ × List Char) :=
  let (neg, cs1) := match cs with | '-' :: t => (true, t) | _ => (false, cs)
  match cs1 with
  | [] => none
  | c :: t =>
    if c = '0' ∨ c.isDigit then
      let (ip, r1) := if c = '0' then (([c] : List Char), t) else (c :: t.takeWhile Char.isDigit, t.dropWhile Char.isDigit)
      let (fp, r2) :=
        match r1 with
        | '.' :: u =>
          let (fd, r) := spanDigits u
          if fd.isEmpty then (([] : List Char), r1) else (fd, r)
        | _ => ([], r1)
      let (ex, r3) := parseExponent r2
      some (ratOfParts neg ip fp ex, r3)
    else none

def hexVal (c : Char) : Option Nat :=
  if c.isDigit then some (c.toNat - '0'.toNat)
  else if 'a' ≤ c ∧ c ≤ 'f' then some (c.toNat - 'a'.toNat + 10)
  else if 'A' ≤ c ∧ c ≤ 'F' then some (c.toNat - 'A'.toNat + 10)
  else none

def parseHex4 : List Char → Option (Nat × List Char)
  | a :: b :: c :: d :: rest =>
    match hexVal a, hexVal b, hexVal c, hexVal d with
    | some x, some y, some z, some w => some (((x * 16 + y) * 16 + z) * 16 + w, rest)
    | _, _, _, _ => none
  | _ => none

/-- JSON string body after the opening quote: strict mode (raw control
characters rejected), standard escapes, `\uXXXX` with surrogate-pair
combination.  `acc` holds the parsed characters in reverse. -/
def parseJString : Nat → List Char → List Char → Option (String × List Char)
  | 0, _, _ => none
  | _ + 1, _, [] => none
  | fuel + 1, acc, c :: cs =>
    if c = '"' then some (String.mk acc.reverse, cs)
    else if c = '\\' then
      match cs with
      | [] => none
      | e :: t =>
        if e = '"' then parseJString fuel ('"' :: acc) t
        else if e = '\\' then parseJString fuel ('\\' :: acc) t
        else if e = '/' then parseJString fuel ('/' :: acc) t
        else if e = 'b' then parseJString fuel ('\x08' :: acc) t
        else if e = 'f' then parseJString fuel ('\x0c' :: acc) t
        else if e = 'n' then parseJString fuel ('\n' :: acc) t
        else if e = 'r' then parseJString fuel ('\r' :: acc) t
        else if e = 't' then parseJString fuel ('\t' :: acc) t
        else if e = 'u' then
          match parseHex4 t with
          | none => none
          | some (h, t1) =>
            if 0xD800 ≤ h ∧ h < 0xDC00 then
              match t1 with
              | '\\' :: 'u' :: t2 =>
                match parseHex4 t2 with
                | some (l, t3) =>
                  if 0xDC00 ≤ l ∧ l < 0xE000 then
                    parseJString fuel
                      (Char.ofNat (0x10000 + (h - 0xD800) * 0x400 + (l - 0xDC00)) :: acc) t3
                  else none
                | none => none
              | _ => none
            else if 0xDC00 ≤ h ∧ h < 0xE000 then none
            else parseJString fuel (Char.ofNat h :: acc) t1
        else none
    else if c.toNat < 0x20 then none
    else parseJString fuel (c :: acc) cs

/-- Parsing task: a value, the members of an object after `{` or `,`, or
the elements of an array after `[` or `,`. -/
inductive PTask where
  | value
  | members (acc : JObj) (first : Bool)
  | elems (acc : List J) (first : Bool)

def parseCore : Nat → PTask → List Char → Option (J × List Char)
  | 0, _, _ => none
  | fuel + 1, .value, cs =>
    match skipWs cs with
    | [] => none
    | c :: rest =>
      if c = '\x7b' then parseCore fuel (.members [] true) rest
      else if c = '[' then parseCore fuel (.elems [] true) rest
      else if c = '"' then (parseJString (rest.length + 1) [] rest).map (fun p => (.str p.1, p.2))
      else if c = 't' then
        match rest with | 'r' :: 'u' :: 'e' :: t => some (.bool true, t) | _ => none
      else if c = 'f' then
        match rest with | 'a' :: 'l' :: 's' :: 'e' :: t => some (.bool false, t) | _ => none
      else if c = 'n' then
        match rest with | 'u' :: 'l' :: 'l' :: t => some (.null, t) | _ => none
      else (parseJsonNumber (c :: rest)).map (fun p => (.num p.1, p.2))
  | fuel + 1, .members acc first, cs =>
    match skipWs cs with
    | '\x7d' :: t => if first then some (.obj acc, t) else none
    | '"' :: t =>
      match parseJString (t.length + 1) [] t with
      | none => none
      | some (k, r1) =>
        match skipWs r1 with
        | ':' :: r2 =>
          match parseCore fuel .value r2 with
          | none => none
          | some (v, r3) =>
            match skipWs r3 with
            | ',' :: r4 => parseCore fuel (.members (dictSet acc k v) false) r4
            | '\x7d' :: r4 => some (.obj (dictSet acc k v), r4)
            | _ => none
        | _ => none
    | _ => none
  | fuel + 1, .elems acc first, cs =>
    match skipWs cs with
    | ']' :: t => if first then some (.arr acc.reverse, t) else none
    | cs' =>
      match parseCore fuel .value cs' with
      | none => none
      | some (v, r1) =>
        match skipWs r1 with
        | ',' :: r2 => parseCore fuel (.elems (v :: acc) false) r2
        | ']' :: r2 => some (.arr (v :: acc).reverse, r2)
        | _ => none

/-- `json.loads` on a character list: one value, then only whitespace. -/
def jsonLoadsL (cs : List Char) : Option J :=
  match parseCore (cs.length + 1) .value cs with
  | some (v, rest) => if (skipWs rest).isEmpty then some v else none
  | none => none

-- ### The tolerant-loader transforms (lines 33-57)

/-- `_strip_bom` (line 33-34): `s.lstrip("﻿")`. -/
def strip_bom (cs : List Char) : List Char := cs.dropWhile (· = '﻿')

def openMarker : List Char := "<<<<<<<".toList
def closeMarker : List Char := ">>>>>>>".toList

/-- First occurrence of `>>>>>>>`: the rest after it, or `none`. -/
def dropAfterClose : List Char → Option (List Char)
  | [] => none
  | c :: cs =>
    if closeMarker.isPrefixOf (c :: cs) then some ((c :: cs).drop 7)
    else dropAfterClose cs

def removeMergeMarkersAux : Nat → List Char → List Char
  | 0, cs => cs
  | _ + 1, [] => []
  | fuel + 1, c :: cs =>
    if openMarker.isPrefixOf (c :: cs) then
      match dropAfterClose ((c :: cs).drop 7) with
      | some rest => removeMergeMarkersAux fuel (rest.dropWhile isPySpace)
      | none => c :: removeMergeMarkersAux fuel cs
    else c :: removeMergeMarkersAux fuel cs

/-- `_remove_merge_markers` (lines 36-38):
`re.sub(r"<<<<<<<.*?>>>>>>>\s*", "", s, flags=re.DOTALL)` — left-to-right
non-overlapping removal of each conflict block up to the nearest closing
marker plus following whitespace. -/
def removeMergeMarkers (cs : List Char) : List Char :=
  removeMergeMarkersAux (cs.length + 1) cs

/-- A match of `^\s*//.*?$` starting at this position (a line start): the
rest after the comment text (`\s` may span line breaks, the comment text
stops before the next newline). -/
def lineCommentAt (cs : List Char) : Option (List Char) :=
  match cs.dropWhile isPySpace with
  | '/' :: '/' :: t => some (t.dropWhile (· ≠ '\n'))
  | _ => none

def removeLineCommentsAux : Nat → Bool → List Char → List Char
  | 0, _, cs => cs
  | _ + 1, _, [] => []
  | fuel + 1, atStart, c :: cs =>
    if atStart then
      match lineCommentAt (c :: cs) with
      | some rest => removeLineCommentsAux fuel false rest
      | none => c :: removeLineCommentsAux fuel (c = '\n') cs
    else c :: removeLineCommentsAux fuel (c = '\n') cs

/-- First occurrence of `*/`: the rest after it, or `none`. -/
def dropAfterBlockClose : List Char → Option (List Char)
  | [] => none
  | c :: cs =>
    if ("*/".toList).isPrefixOf (c :: cs) then some ((c :: cs).drop 2)
    else dropAfterBlockClose cs

def removeBlockCommentsAux : Nat → List Char → List Char
  | 0, cs => cs
  | _ + 1, [] => []
  | fuel + 1, c :: cs =>
    if ("/*".toList).isPrefixOf (c :: cs) then
      match dropAfterBlockClose ((c :: cs).drop 2) with
      | some rest => removeBlockCommentsAux fuel rest
      | none => c :: removeBlockCommentsAux fuel cs
    else c :: removeBlockCommentsAux fuel cs

/-- `_remove_inline_comments` (lines 40-45): first
`re.sub(r"^\s*//.*?$", "", s, flags=re.MULTILINE)`, then
`re.sub(r"/\*.*?\*/", "", s, flags=re.DOTALL)`. -/
def remove_inline_comments (cs : List Char) : List Char :=
  removeBlockCommentsAux (cs.length + 1)
    (removeLineCommentsAux (cs.length + 1) true cs)

/-- `_strip_to_outer_braces` (lines 47-53): keep from the first `{` to the
last `}` when both exist in that order, else return the input unchanged. -/
def strip_to_outer_braces (cs : List Char) : List Char :=
  match cs.findIdx? (· = '\x7b') with
  | none => cs
  | some start =>
    match cs.reverse.findIdx? (· = '\x7d') with
    | none => cs
    | some ri =>
      let stop := cs.length - 1 - ri
      if start < stop then (cs.drop start).take (stop - start + 1) else cs

def fixCommasAux : Nat → List Char → List Char
  | 0, cs => cs
  | _ + 1, [] => []
  | fuel + 1, c :: cs =>
    if c = ',' then
      match cs.dropWhile isPySpace with
      | b :: rest =>
        if b = '\x7d' ∨ b = ']' then b :: fixCommasAux fuel rest
        else c :: fixCommasAux fuel cs
      | [] => c :: fixCommasAux fuel cs
    else c :: fixCommasAux fuel cs

/-- `_fix_trailing_commas` (lines 55-57):
`re.sub(r",\s*([}\]])", r"\1", s)` — left-to-right non-overlapping removal
of a comma (with following whitespace) directly before a closing brace or
bracket. -/
def fix_trailing_commas (cs : List Char) : List Char :=
  fixCommasAux (cs.length + 1) cs

/-- `try_parse_relaxed` (lines 59-78): parse each progressively transformed
candidate in order, returning the first success; `none` is the re-raised
last error. -/
def try_parse_relaxed (txt : List Char) : Option J :=
  let c1 := strip_bom txt
  let c2 := removeMergeMarkers c1
  let c3 := remove_inline_comments c2
  let c4 := strip_to_outer_braces c3
  let c5 := fix_trailing_commas c4
  match jsonLoadsL c1 with
  | some v => some v
  | none =>
    match jsonLoadsL c2 with
    | some v => some v
    | none =>
      match jsonLoadsL c3 with
      | some v => some v
      | none =>
        match jsonLoadsL c4 with
        | some v => some v
        | none => jsonLoadsL c5

-- ### load_db (lines 80-110)

/-- Substring test, for Python's `needle in haystack` on strings. -/
def containsSub (hay needle : List Char) : Bool :=
  hay.tails.any needle.isPrefixOf

/-- Python `key in data` on a JSON value: key lookup on dicts, element
equality on lists, substring on strings; `none` is the `TypeError` raised
on the remaining types. -/
def pyContains (data : J) (k : String) : Option Bool :=
  match data with
  | .obj kvs => some (dictContains kvs k)
  | .arr xs => some (xs.any (fun x => match x with | .str s => s == k | _ => false))
  | .str s => some (containsSub s.toList k.toList)
  | _ => none

/-- `sum(len(d.get("comments", [])) for d in discussions if isinstance(d, dict))`
(line 108): non-dict elements are skipped by the `isinstance` guard;
`none` is the exception raised by `len` on a non-sized comments value. -/
def totalCommentsMeta : List J → Option Nat
  | [] => some 0
  | d :: rest =>
    match d with
    | .obj kvs =>
      match pyLen (dictGetD kvs "comments" (.arr [])), totalCommentsMeta rest with
      | some n, some m => some (n + m)
      | _, _ => none
    | _ => totalCommentsMeta rest

/-- Lines 99-110 of `load_db`: shape normalization of a successfully parsed
document.  A document with a `discussions` key gets a default `metadata`
and is returned unchanged; otherwise the alternate `{subreddit, items}`
schema is rebuilt into the canonical shape.  `none` is a raised exception
(e.g. the parsed document is not a dict). -/
def loadNormalize (data : J) (now : String) : Option J :=
  match pyContains data "discussions" with
  | none => none
  | some true =>
    match data with
    | .obj kvs =>
      some (.obj (dictSetdefault kvs "metadata"
        (.obj [("source", .str ("Reddit r/" ++ SUBREDDIT))])))
    | _ => none
  | some false =>
    match data with
    | .obj kvs =>
      let items := dictGetD kvs "items" (.arr [])
      match pyLen items, pyIter items with
      | some tp, some xs =>
        match totalCommentsMeta xs with
        | some tc =>
          some (.obj
            [("metadata", .obj
               [("source", .str ("Reddit r/" ++
                   pyStr (dictGetD kvs "subreddit" (.str SUBREDDIT)))),
                ("scrape_date", .str now),
                ("total_posts", .num tp),
                ("total_comments", .num tc)]),
             ("discussions", items)])
        | none => none
      | _, _ => none
    | _ => none

/-- Result of `load_db`: the returned database and, when the relaxed repair
also failed, the content written to the `.corrupt.backup.json` file. -/
structure LoadOutcome where
  db : J
  backup : Option (List Char)

/-- `load_db` (lines 80-110).  `file` is the content of the database file
(`none` when the path does not exist), read as text; `now` stands for
`now_iso()`.  The outer `none` is a raised exception. -/
def load_db (file : Option (List Char)) (now : String) : Option LoadOutcome :=
  match file with
  | none => some ⟨empty_db now, none⟩
  | some raw =>
    match jsonLoadsL raw with
    | some data => (loadNormalize data now).map (fun db => ⟨db, none⟩)
    | none =>
      match try_parse_relaxed raw with
      | some data => (loadNormalize data now).map (fun db => ⟨db, none⟩)
      | none => some ⟨empty_db now, some raw⟩

-- ### The credential checks at the top of both `main`s

/-- `os.environ.get(k)`. -/
def envGet (env : List (String × String)) (k : String) : Option String :=
  (env.find? (fun kv => kv.1 = k)).map (fun kv => kv.2)

/-- Python truthiness of `os.environ.get(...)`: `None` and `""` are falsy. -/
def pyTruthyOptStr : Option String → Bool
  | none => false
  | some s => s != ""

structure RedditClientConfig where
  client_id : String
  client_secret : String
  user_agent : String
deriving DecidableEq

/-- Lines 164-171 of `fetch_append_r_programmatic.py`: the credential check
runs first; on failure `raise SystemExit("Missing ...")` terminates the
process with exit status 1 before `praw.Reddit(...)` is constructed.  An
`ok` result carries the arguments of the client construction that follows. -/
def mainStartAppend (env : List (String × String)) :
    Except (Nat × String) RedditClientConfig :=
  let cid := envGet env "REDDIT_CLIENT_ID"
  let csec := envGet env "REDDIT_CLIENT_SECRET"
  if ¬ pyTruthyOptStr cid ∨ ¬ pyTruthyOptStr csec then
    .error (1, "Missing REDDIT_CLIENT_ID or REDDIT_CLIENT_SECRET")
  else
    .ok ⟨cid.getD "", csec.getD "",
         "reddit-r-programmatic-archiver/1.1 (by u/yourbot)"⟩

/-- Lines 29-39 of `fetch_r_programmatic.py`: the credential check prints an
error and calls `sys.exit(2)` before `praw.Reddit(...)` is constructed. -/
def mainStartSimple (env : List (String × String)) :
    Except (Nat × String) RedditClientConfig :=
  let cid := envGet env "REDDIT_CLIENT_ID"
  let csec := envGet env "REDDIT_CLIENT_SECRET"
  if ¬ pyTruthyOptStr cid ∨ ¬ pyTruthyOptStr csec then
    .error (2, "ERROR: Missing Reddit credentials in env")
  else
    .ok ⟨cid.getD "", csec.getD "",
         "r-programmatic-json-updater by u/<yourname>"⟩

-- ### Dictionary lemmas

theorem dictGet_dictSet_self (l : JObj) (k : String) (v : J) :
    dictGet (dictSet l k v) k = some v := by
  induction l with
  | nil => simp [dictSet, dictGet]
  | cons kv rest ih =>
    obtain ⟨k', w⟩ := kv
    by_cases h : k' = k <;> simp [dictSet, dictGet, h, ih]

theorem dictGet_dictSet_ne (l : JObj) (k k' : String) (v : J) (h : k' ≠ k) :
    dictGet (dictSet l k v) k' = dictGet l k' := by
  induction l with
  | nil => simp [dictSet, dictGet, Ne.symm h]
  | cons kv rest ih =>
    obtain ⟨k0, w⟩ := kv
    by_cases h0 : k0 = k <;> by_cases h1 : k0 = k' <;>
      simp_all [dictSet, dictGet]

theorem dictContains_of_get (l : JObj) (k : String) (v : J)
    (h : dictGet l k = some v) : dictContains l k = true := by
  induction l with
  | nil => simp [dictGet] at h
  | cons kv rest ih =>
    obtain ⟨k0, w⟩ := kv
    by_cases h0 : k0 = k <;> simp_all [dictGet, dictContains]

theorem dictSetdefault_of_get (l : JObj) (k : String) (v w : J)
    (h : dictGet l k = some w) : dictSetdefault l k v = l := by
  simp [dictSetdefault, dictContains_of_get l k w h]

theorem dictGet_append_ne (l : JObj) (k k' : String) (v : J) (h : k' ≠ k) :
    dictGet (l ++ [(k, v)]) k' = dictGet l k' := by
  induction l with
  | nil => simp [dictGet, Ne.symm h]
  | cons kv rest ih =>
    obtain ⟨k0, w⟩ := kv
    by_cases h0 : k0 = k' <;> simp_all [dictGet]

theorem dictGet_dictSetdefault_ne (l : JObj) (k k' : String) (v : J) (h : k' ≠ k) :
    dictGet (dictSetdefault l k v) k' = dictGet l k' := by
  unfold dictSetdefault
  by_cases hc : dictContains l k <;> simp [hc, dictGet_append_ne l k k' v h]

-- ### A characterization of a successful `save_db`

theorem save_db_spec (kvs : JObj) (now : String) (out : J)
    (h : save_db (.obj kvs) now = some out) :
    ∃ tp tc mkvs0,
      pyLen (dictGetD kvs "discussions" (.arr [])) = some tp ∧
      (pyIter (dictGetD kvs "discussions" (.arr []))).bind totalCommentsOf = some tc ∧
      dictGetD (dictSetdefault kvs "metadata" (.obj [])) "metadata" (.obj []) = .obj mkvs0 ∧
      out = .obj (dictSet (dictSetdefault kvs "metadata" (.obj [])) "metadata" (.obj
        (dictSet
          (dictSet
            (dictSet
              (dictSet mkvs0 "source" (.str ("Reddit r/" ++ SUBREDDIT)))
              "scrape_date" (.str now))
            "total_posts" (.num tp))
          "total_comments" (.num tc)))) := by
  simp only [save_db] at h
  split at h
  next tp xs hlen hiter =>
    split at h
    next tc htc =>
      split at h
      next mkvs0 hmeta =>
        refine ⟨tp, tc, mkvs0, hlen, ?_, hmeta, ?_⟩
        · rw [hiter]; simpa using htc
        · exact (Option.some.injEq _ _ ▸ h).symm
      next => exact absurd h (by simp)
    next => exact absurd h (by simp)
  next => exact absurd h (by simp)

/-- C3: after every successful save, the written document's
`metadata.total_posts` equals the length of its discussions list and
`metadata.total_comments` equals the sum over the discussions of the
length of each discussion's comments list (as computed by `len` and the
generator sum of lines 113-114). -/
theorem save_db_metadata_accuracy (db : J) (now : String) (out : J)
    (h : save_db db now = some out) :
    ∃ okvs mkvs tp tc,
      out = .obj okvs ∧
      dictGet okvs "metadata" = some (.obj mkvs) ∧
      pyLen (dictGetD okvs "discussions" (.arr [])) = some tp ∧
      (pyIter (dictGetD okvs "discussions" (.arr []))).bind totalCommentsOf = some tc ∧
      dictGet mkvs "total_posts" = some (.num tp) ∧
      dictGet mkvs "total_comments" = some (.num tc) := by
  cases db with
  | obj kvs =>
    obtain ⟨tp, tc, mkvs0, hlen, htc, hmeta, hout⟩ := save_db_spec kvs now out h
    refine ⟨_, _, tp, tc, hout, dictGet_dictSet_self _ _ _, ?_, ?_,
            ?_, dictGet_dictSet_self _ _ _⟩
    · rw [dictGetD, dictGet_dictSet_ne _ _ _ _ (by decide),
          dictGet_dictSetdefault_ne _ _ _ _ (by decide)]
      exact hlen
    · rw [dictGetD, dictGet_dictSet_ne _ _ _ _ (by decide),
          dictGet_dictSetdefault_ne _ _ _ _ (by decide)]
      exact htc
    · rw [dictGet_dictSet_ne _ _ _ _ (by decide)]
      exact dictGet_dictSet_self _ _ _
  | null => simp [save_db] at h
  | bool b => simp [save_db] at h
  | num q => simp [save_db] at h
  | str s => simp [save_db] at h
  | arr xs => simp [save_db] at h

theorem save_db_metadata_accuracy_witness :
    save_db (J.obj [("discussions", J.arr [J.obj [("comments", J.arr [J.null, J.null])]])]) "T"
      = some (J.obj [("discussions", J.arr [J.obj [("comments", J.arr [J.null, J.null])]]),
          ("metadata", J.obj [("source", J.str "Reddit r/programmatic"),
            ("scrape_date", J.str "T"), ("total_posts", J.num 1), ("total_comments", J.num 2)])]) ∧
    ∃ okvs mkvs tp tc,
      (J.obj [("discussions", J.arr [J.obj [("comments", J.arr [J.null, J.null])]]),
          ("metadata", J.obj [("source", J.str "Reddit r/programmatic"),
            ("scrape_date", J.str "T"), ("total_posts", J.num 1), ("total_comments", J.num 2)])])
        = .obj okvs ∧
      dictGet okvs "metadata" = some (.obj mkvs) ∧
      pyLen (dictGetD okvs "discussions" (.arr [])) = some tp ∧
      (pyIter (dictGetD okvs "discussions" (.arr []))).bind totalCommentsOf = some tc ∧
      dictGet mkvs "total_posts" = some (.num tp) ∧
      dictGet mkvs "total_comments" = some (.num tc) :=
  ⟨by rfl, save_db_metadata_accuracy
    (J.obj [("discussions", J.arr [J.obj [("comments", J.arr [J.null, J.null])]])]) "T"
    (J.obj [("discussions", J.arr [J.obj [("comments", J.arr [J.null, J.null])]]),
      ("metadata", J.obj [("source", J.str "Reddit r/programmatic"),
        ("scrape_date", J.str "T"), ("total_posts", J.num 1), ("total_comments", J.num 2)])])
    (by rfl)⟩

/-- C9: a successful save modifies only the metadata fields `source`,
`scrape_date`, `total_posts` and `total_comments`: every other top-level
key of the database, every other metadata field, and the discussions
value itself are written to the file unchanged. -/
theorem save_db_frame (kvs : JObj) (now : String) (out : J)
    (h : save_db (.obj kvs) now = some out) :
    ∃ okvs, out = .obj okvs ∧
      (∀ k, k ≠ "metadata" → dictGet okvs k = dictGet kvs k) ∧
      dictGet okvs "discussions" = dictGet kvs "discussions" ∧
      ∀ mkvs omkvs, dictGet kvs "metadata" = some (.obj mkvs) →
        dictGet okvs "metadata" = some (.obj omkvs) →
        ∀ mk, mk ≠ "source" → mk ≠ "scrape_date" → mk ≠ "total_posts" →
          mk ≠ "total_comments" → dictGet omkvs mk = dictGet mkvs mk := by
  obtain ⟨tp, tc, mkvs0, hlen, htc, hmeta, hout⟩ := save_db_spec kvs now out h
  refine ⟨_, hout, ?_, ?_, ?_⟩
  · intro k hk
    rw [dictGet_dictSet_ne _ _ _ _ hk, dictGet_dictSetdefault_ne _ _ _ _ hk]
  · rw [dictGet_dictSet_ne _ _ _ _ (by decide),
        dictGet_dictSetdefault_ne _ _ _ _ (by decide)]
  · intro mkvs omkvs hm hom mk h1 h2 h3 h4
    have hsd : dictSetdefault kvs "metadata" (.obj []) = kvs :=
      dictSetdefault_of_get _ _ _ _ hm
    have hmk : mkvs0 = mkvs := by
      have h5 : dictGetD (dictSetdefault kvs "metadata" (.obj [])) "metadata" (.obj [])
          = .obj mkvs := by
        rw [hsd, dictGetD, hm]; rfl
      exact J.obj.inj (hmeta.symm.trans h5)
    have hom4 : omkvs = dictSet
        (dictSet
          (dictSet
            (dictSet mkvs0 "source" (.str ("Reddit r/" ++ SUBREDDIT)))
            "scrape_date" (.str now))
          "total_posts" (.num tp))
        "total_comments" (.num tc) := by
      have h6 := dictGet_dictSet_self (dictSetdefault kvs "metadata" (.obj []))
        "metadata" (.obj (dictSet
          (dictSet
            (dictSet
              (dictSet mkvs0 "source" (.str ("Reddit r/" ++ SUBREDDIT)))
              "scrape_date" (.str now))
            "total_posts" (.num tp))
          "total_comments" (.num tc)))
      have h7 := hom.symm.trans h6
      exact J.obj.inj (Option.some.inj h7)
    rw [hom4, dictGet_dictSet_ne _ _ _ _ h4, dictGet_dictSet_ne _ _ _ _ h3,
        dictGet_dictSet_ne _ _ _ _ h2, dictGet_dictSet_ne _ _ _ _ h1, hmk]

theorem save_db_frame_witness :
    save_db (J.obj [("extra", J.num 7), ("discussions", J.arr []),
        ("metadata", J.obj [("note", J.str "keep"), ("source", J.str "old")])]) "T"
      = some (J.obj [("extra", J.num 7), ("discussions", J.arr []),
        ("metadata", J.obj [("note", J.str "keep"), ("source", J.str "Reddit r/programmatic"),
          ("scrape_date", J.str "T"), ("total_posts", J.num 0), ("total_comments", J.num 0)])]) ∧
    ∃ okvs, (J.obj [("extra", J.num 7), ("discussions", J.arr []),
        ("metadata", J.obj [("note", J.str "keep"), ("source", J.str "Reddit r/programmatic"),
          ("scrape_date", J.str "T"), ("total_posts", J.num 0), ("total_comments", J.num 0)])])
        = .obj okvs ∧
      (∀ k, k ≠ "metadata" → dictGet okvs k =
        dictGet [("extra", J.num 7), ("discussions", J.arr []),
          ("metadata", J.obj [("note", J.str "keep"), ("source", J.str "old")])] k) ∧
      dictGet okvs "discussions" =
        dictGet [("extra", J.num 7), ("discussions", J.arr []),
          ("metadata", J.obj [("note", J.str "keep"), ("source", J.str "old")])] "discussions" ∧
      ∀ mkvs omkvs,
        dictGet [("extra", J.num 7), ("discussions", J.arr []),
          ("metadata", J.obj [("note", J.str "keep"), ("source", J.str "old")])] "metadata"
          = some (.obj mkvs) →
        dictGet okvs "metadata" = some (.obj omkvs) →
        ∀ mk, mk ≠ "source" → mk ≠ "scrape_date" → mk ≠ "total_posts" →
          mk ≠ "total_comments" → dictGet omkvs mk = dictGet mkvs mk :=
  ⟨by rfl, save_db_frame
    [("extra", J.num 7), ("discussions", J.arr []),
      ("metadata", J.obj [("note", J.str "keep"), ("source", J.str "old")])] "T"
    (J.obj [("extra", J.num 7), ("discussions", J.arr []),
      ("metadata", J.obj [("note", J.str "keep"), ("source", J.str "Reddit r/programmatic"),
        ("scrape_date", J.str "T"), ("total_posts", J.num 0), ("total_comments", J.num 0)])])
    (by rfl)⟩

/-- C5: save-then-load round trip.  For a database whose `discussions`
value is a list, a successful save followed by the loader's
shape-normalization (the `json.dumps`/`json.loads` file round-trip being
Python-stdlib behaviour, the written document value is fed back to the
loader) returns the saved document unchanged, and its discussions list is
exactly the input's — hence the same set of identity keys in the same
order. -/
theorem load_after_save_preserves_discussions (kvs : JObj) (ds : List J)
    (now now2 : String) (out : J)
    (hd : dictGet kvs "discussions" = some (.arr ds))
    (h : save_db (.obj kvs) now = some out) :
    loadNormalize out now2 = some out ∧
    ∃ okvs, out = .obj okvs ∧ dictGet okvs "discussions" = some (.arr ds) := by
  obtain ⟨tp, tc, mkvs0, hlen, htc, hmeta, hout⟩ := save_db_spec kvs now out h
  have hdisc : dictGet (dictSet (dictSetdefault kvs "metadata" (.obj [])) "metadata"
      (.obj (dictSet
        (dictSet
          (dictSet
            (dictSet mkvs0 "source" (.str ("Reddit r/" ++ SUBREDDIT)))
            "scrape_date" (.str now))
          "total_posts" (.num tp))
        "total_comments" (.num tc)))) "discussions" = some (.arr ds) := by
    rw [dictGet_dictSet_ne _ _ _ _ (by decide),
        dictGet_dictSetdefault_ne _ _ _ _ (by decide)]
    exact hd
  have hmetaG := dictGet_dictSet_self (dictSetdefault kvs "metadata" (.obj []))
    "metadata" (.obj (dictSet
      (dictSet
        (dictSet
          (dictSet mkvs0 "source" (.str ("Reddit r/" ++ SUBREDDIT)))
          "scrape_date" (.str now))
        "total_posts" (.num tp))
      "total_comments" (.num tc)))
  constructor
  · rw [hout]
    simp only [loadNormalize, pyContains, dictContains_of_get _ _ _ hdisc]
    rw [dictSetdefault_of_get _ _ _ _ hmetaG]
  · exact ⟨_, hout, hdisc⟩

theorem load_after_save_preserves_discussions_witness :
    dictGet [("discussions", J.arr [J.obj [("id", J.str "x")]])] "discussions"
      = some (.arr [J.obj [("id", J.str "x")]]) ∧
    save_db (.obj [("discussions", J.arr [J.obj [("id", J.str "x")]])]) "T"
      = some (J.obj [("discussions", J.arr [J.obj [("id", J.str "x")]]),
          ("metadata", J.obj [("source", J.str "Reddit r/programmatic"),
            ("scrape_date", J.str "T"), ("total_posts", J.num 1), ("total_comments", J.num 0)])]) ∧
    (loadNormalize (J.obj [("discussions", J.arr [J.obj [("id", J.str "x")]]),
          ("metadata", J.obj [("source", J.str "Reddit r/programmatic"),
            ("scrape_date", J.str "T"), ("total_posts", J.num 1), ("total_comments", J.num 0)])]) "U"
      = some (J.obj [("discussions", J.arr [J.obj [("id", J.str "x")]]),
          ("metadata", J.obj [("source", J.str "Reddit r/programmatic"),
            ("scrape_date", J.str "T"), ("total_posts", J.num 1), ("total_comments", J.num 0)])]) ∧
    ∃ okvs, (J.obj [("discussions", J.arr [J.obj [("id", J.str "x")]]),
          ("metadata", J.obj [("source", J.str "Reddit r/programmatic"),
            ("scrape_date", J.str "T"), ("total_posts", J.num 1), ("total_comments", J.num 0)])])
        = .obj okvs ∧
      dictGet okvs "discussions" = some (.arr [J.obj [("id", J.str "x")]])) :=
  ⟨by rfl, by rfl,
   load_after_save_preserves_discussions
     [("discussions", J.arr [J.obj [("id", J.str "x")]])]
     [J.obj [("id", J.str "x")]] "T" "U"
     (J.obj [("discussions", J.arr [J.obj [("id", J.str "x")]]),
       ("metadata", J.obj [("source", J.str "Reddit r/programmatic"),
         ("scrape_date", J.str "T"), ("total_posts", J.num 1), ("total_comments", J.num 0)])])
     (by rfl) (by rfl)⟩

/-- C8: in every environment where either credential variable is absent or
empty, both script variants terminate with a non-zero exit reporting the
configuration error, and no API-client configuration is ever produced
(the client is constructed only by an `ok` result, which the check
precedes). -/
theorem missing_credentials_exit (env : List (String × String))
    (h : ¬ (pyTruthyOptStr (envGet env "REDDIT_CLIENT_ID") = true) ∨
         ¬ (pyTruthyOptStr (envGet env "REDDIT_CLIENT_SECRET") = true)) :
    mainStartAppend env = .error (1, "Missing REDDIT_CLIENT_ID or REDDIT_CLIENT_SECRET") ∧
    mainStartSimple env = .error (2, "ERROR: Missing Reddit credentials in env") ∧
    (∀ cfg, mainStartAppend env ≠ .ok cfg) ∧
    (∀ cfg, mainStartSimple env ≠ .ok cfg) := by
  have ha : mainStartAppend env
      = .error (1, "Missing REDDIT_CLIENT_ID or REDDIT_CLIENT_SECRET") := by
    simp only [mainStartAppend]
    rw [if_pos h]
  have hb : mainStartSimple env
      = .error (2, "ERROR: Missing Reddit credentials in env") := by
    simp only [mainStartSimple]
    rw [if_pos h]
  exact ⟨ha, hb, fun cfg hc => by simp [ha] at hc, fun cfg hc => by simp [hb] at hc⟩

theorem missing_credentials_exit_witness :
    (¬ (pyTruthyOptStr (envGet [("REDDIT_CLIENT_ID", "abc")] "REDDIT_CLIENT_ID") = true) ∨
     ¬ (pyTruthyOptStr (envGet [("REDDIT_CLIENT_ID", "abc")] "REDDIT_CLIENT_SECRET") = true)) ∧
    (mainStartAppend [("REDDIT_CLIENT_ID", "abc")]
        = .error (1, "Missing REDDIT_CLIENT_ID or REDDIT_CLIENT_SECRET") ∧
     mainStartSimple [("REDDIT_CLIENT_ID", "abc")]
        = .error (2, "ERROR: Missing Reddit credentials in env") ∧
     (∀ cfg, mainStartAppend [("REDDIT_CLIENT_ID", "abc")] ≠ .ok cfg) ∧
     (∀ cfg, mainStartSimple [("REDDIT_CLIENT_ID", "abc")] ≠ .ok cfg)) :=
  ⟨Or.inr (by decide), missing_credentials_exit _ (Or.inr (by decide))⟩

/-- C6: for file content on which both the strict parse and every
relaxed-recovery transform fail, the loader returns the empty database
shape and leaves a backup whose content is exactly the text read from
the corrupt file.  (File contents are modelled as decoded text; for a
valid-UTF-8 file this is exactly the original bytes.) -/
theorem load_garbage_empty_db_backup (raw : List Char) (now : String)
    (h1 : jsonLoadsL raw = none) (h2 : try_parse_relaxed raw = none) :
    load_db (some raw) now = some ⟨empty_db now, some raw⟩ := by
  simp only [load_db, h1, h2]

theorem load_garbage_empty_db_backup_witness :
    jsonLoadsL ("garbage!!".toList) = none ∧
    try_parse_relaxed ("garbage!!".toList) = none ∧
    load_db (some ("garbage!!".toList)) "N"
      = some ⟨empty_db "N", some ("garbage!!".toList)⟩ :=
  ⟨by rfl, by rfl, load_garbage_empty_db_backup ("garbage!!".toList) "N" (by rfl) (by rfl)⟩

/-- C7 (amended): whenever the first four relaxed candidates fail to parse
and stripping trailing commas turns the document into exactly the
well-formed document `good`, the loader recovers `good`'s parsed value —
i.e. the transforms are tried in order and the first successful parse is
returned.  (The unamended claim fails when a string literal itself
contains a comma directly before a closing brace/bracket, since the
comma-stripping regex rewrites the literal too; see the counterexample.) -/
theorem trailing_comma_recovery_of_transforms (txt good : List Char) (v : J)
    (h1 : jsonLoadsL (strip_bom txt) = none)
    (h2 : jsonLoadsL (removeMergeMarkers (strip_bom txt)) = none)
    (h3 : jsonLoadsL (remove_inline_comments (removeMergeMarkers (strip_bom txt))) = none)
    (h4 : jsonLoadsL (strip_to_outer_braces
        (remove_inline_comments (removeMergeMarkers (strip_bom txt)))) = none)
    (h5 : fix_trailing_commas (strip_to_outer_braces
        (remove_inline_comments (removeMergeMarkers (strip_bom txt)))) = good)
    (hv : jsonLoadsL good = some v) :
    try_parse_relaxed txt = some v := by
  simp only [try_parse_relaxed, h1, h2, h3, h4, h5, hv]

theorem trailing_comma_recovery_witness :
    jsonLoadsL (strip_bom ("\x7b\"a\": 1,\x7d".toList)) = none ∧
    jsonLoadsL (removeMergeMarkers (strip_bom ("\x7b\"a\": 1,\x7d".toList))) = none ∧
    jsonLoadsL (remove_inline_comments (removeMergeMarkers
      (strip_bom ("\x7b\"a\": 1,\x7d".toList)))) = none ∧
    jsonLoadsL (strip_to_outer_braces (remove_inline_comments (removeMergeMarkers
      (strip_bom ("\x7b\"a\": 1,\x7d".toList))))) = none ∧
    fix_trailing_commas (strip_to_outer_braces (remove_inline_comments (removeMergeMarkers
      (strip_bom ("\x7b\"a\": 1,\x7d".toList))))) = "\x7b\"a\": 1\x7d".toList ∧
    jsonLoadsL ("\x7b\"a\": 1\x7d".toList) = some (J.obj [("a", J.num 1)]) ∧
    try_parse_relaxed ("\x7b\"a\": 1,\x7d".toList) = some (J.obj [("a", J.num 1)]) :=
  ⟨by rfl, by rfl, by rfl, by rfl, by rfl, by rfl,
   trailing_comma_recovery_of_transforms ("\x7b\"a\": 1,\x7d".toList)
     ("\x7b\"a\": 1\x7d".toList) (J.obj [("a", J.num 1)])
     (by rfl) (by rfl) (by rfl) (by rfl) (by rfl) (by rfl)⟩

/-- C7 counterexample: the claim as stated fails.  `{"a": ",]",}` is
well-formed except for its trailing comma before `}` and its well-formed
equivalent `{"a": ",]"}` parses to the value with string `",]"`, but the
comma-stripping regex also rewrites the comma inside the string literal,
so the loader recovers the different value with string `"]"`. -/
theorem trailing_comma_string_literal_counterexample :
    jsonLoadsL ("\x7b\"a\": \",]\"\x7d".toList) = some (J.obj [("a", J.str ",]")]) ∧
    jsonLoadsL ("\x7b\"a\": \",]\",\x7d".toList) = none ∧
    try_parse_relaxed ("\x7b\"a\": \",]\",\x7d".toList) = some (J.obj [("a", J.str "]")]) ∧
    try_parse_relaxed ("\x7b\"a\": \",]\",\x7d".toList) ≠
      jsonLoadsL ("\x7b\"a\": \",]\"\x7d".toList) := by
  have e1 : try_parse_relaxed ("\x7b\"a\": \",]\",\x7d".toList)
      = some (J.obj [("a", J.str "]")]) := by rfl
  have e2 : jsonLoadsL ("\x7b\"a\": \",]\"\x7d".toList)
      = some (J.obj [("a", J.str ",]")]) := by rfl
  refine ⟨e2, by rfl, e1, ?_⟩
  rw [e1, e2]
  intro h
  simp at h

-- ### The fetch loop under a positive cutoff (C1) and a zero cutoff (C10)

/-- Field lookup on a JSON object value. -/
def jField (j : J) (k : String) : Option J :=
  match j with
  | .obj kvs => dictGet kvs k
  | _ => none

theorem jField_serialize_created (s : Submission) :
    jField (serialize_submission s) "created_utc" = some (.num s.created_utc) := by
  rfl

theorem fetchLoop_created_gt (T : ℚ) (hT : 0 < T) :
    ∀ (l : List Submission) (seen : List String),
      ∀ r ∈ fetchLoop T seen l, ∃ q, jField r "created_utc" = some (.num q) ∧ T < q := by
  intro l
  induction l with
  | nil => intro seen r hr; simp [fetchLoop] at hr
  | cons s rest ih =>
    intro seen r hr
    by_cases hb : T ≠ 0 ∧ s.created_utc ≤ T
    · simp only [fetchLoop, if_pos hb] at hr
      exact absurd hr (List.not_mem_nil r)
    · have hgt : T < s.created_utc := by
        rcases not_and_or.mp hb with h | h
        · exact absurd (not_not.mp h) (ne_of_gt hT)
        · exact lt_of_not_le h
      simp only [fetchLoop, if_neg hb] at hr
      by_cases hs : subKey s ∈ seen
      · rw [if_pos hs] at hr
        exact ih seen r hr
      · rw [if_neg hs] at hr
        rcases List.mem_cons.mp hr with h | h
        · exact h ▸ ⟨s.created_utc, jField_serialize_created s, hgt⟩
        · exact ih _ r h

theorem fetchLoop_stops_at_cutoff (T : ℚ) (hT : 0 < T) :
    ∀ (l : List Submission) (seen : List String),
      fetchLoop T seen l
        = fetchLoop T seen (l.takeWhile (fun s => decide (T < s.created_utc))) := by
  intro l
  induction l with
  | nil => intro seen; rfl
  | cons s rest ih =>
    intro seen
    by_cases hc : T < s.created_utc
    · have h1 : (s :: rest).takeWhile (fun s => decide (T < s.created_utc))
          = s :: rest.takeWhile (fun s => decide (T < s.created_utc)) := by
        simp [List.takeWhile_cons, hc]
      have hb : ¬ (T ≠ 0 ∧ s.created_utc ≤ T) := by
        rintro ⟨-, hle⟩
        exact absurd hc (not_lt.mpr hle)
      rw [h1]
      simp only [fetchLoop, if_neg hb]
      by_cases hs : subKey s ∈ seen
      · rw [if_pos hs, if_pos hs]
        exact ih seen
      · rw [if_neg hs, if_neg hs, ih (subKey s :: seen)]
    · have h1 : (s :: rest).takeWhile (fun s => decide (T < s.created_utc)) = [] := by
        simp [List.takeWhile_cons, hc]
      have hb : T ≠ 0 ∧ s.created_utc ≤ T := ⟨ne_of_gt hT, not_lt.mp hc⟩
      rw [h1]
      simp only [fetchLoop, if_pos hb]

/-- C1: for a stored database whose computed cutoff is `T > 0` and any
fetch stream, every record the fetch loop appends has
`created_utc > T`, and the loop stops at the first fetched item with
timestamp at or below `T` (it only ever processes the longest prefix of
the capped stream whose timestamps exceed `T`): no item with timestamp
`≤ T` is ever added. -/
theorem cutoff_fetch_only_newer (ds : List J) (seen : List String)
    (stream : List Submission) (T : ℚ)
    (hkeys : keysOf ds = some seen) (hcut : computeCutoff ds = T) (hT : 0 < T) :
    (∀ r ∈ fetchLoop T seen (stream.take MAX_NEW_TO_PULL),
       ∃ q, jField r "created_utc" = some (.num q) ∧ T < q) ∧
    fetchLoop T seen (stream.take MAX_NEW_TO_PULL)
      = fetchLoop T seen ((stream.take MAX_NEW_TO_PULL).takeWhile
          (fun s => decide (T < s.created_utc))) :=
  ⟨fun r hr => fetchLoop_created_gt T hT _ seen r hr,
   fetchLoop_stops_at_cutoff T hT _ seen⟩

theorem cutoff_fetch_only_newer_witness :
    keysOf [J.obj [("id", J.str "a"), ("created_utc", J.num 5)]] = some ["id:a"] ∧
    computeCutoff [J.obj [("id", J.str "a"), ("created_utc", J.num 5)]] = 5 ∧
    (0 : ℚ) < 5 ∧
    ((∀ r ∈ fetchLoop 5 ["id:a"]
        (([⟨"b", "tb", none, 1, "ub", "pb", 6, "cb", 0, false, none, [], true⟩,
           ⟨"c", "tc", none, 1, "uc", "pc", 5, "cc", 0, false, none, [], true⟩] :
          List Submission).take MAX_NEW_TO_PULL),
        ∃ q, jField r "created_utc" = some (.num q) ∧ 5 < q) ∧
     fetchLoop 5 ["id:a"]
        (([⟨"b", "tb", none, 1, "ub", "pb", 6, "cb", 0, false, none, [], true⟩,
           ⟨"c", "tc", none, 1, "uc", "pc", 5, "cc", 0, false, none, [], true⟩] :
          List Submission).take MAX_NEW_TO_PULL)
       = fetchLoop 5 ["id:a"]
          ((([⟨"b", "tb", none, 1, "ub", "pb", 6, "cb", 0, false, none, [], true⟩,
              ⟨"c", "tc", none, 1, "uc", "pc", 5, "cc", 0, false, none, [], true⟩] :
            List Submission).take MAX_NEW_TO_PULL).takeWhile
            (fun s => decide ((5:ℚ) < s.created_utc)))) :=
  ⟨by rfl, by decide, by norm_num,
   cutoff_fetch_only_newer [J.obj [("id", J.str "a"), ("created_utc", J.num 5)]]
     ["id:a"]
     [⟨"b", "tb", none, 1, "ub", "pb", 6, "cb", 0, false, none, [], true⟩,
      ⟨"c", "tc", none, 1, "uc", "pc", 5, "cc", 0, false, none, [], true⟩]
     5 (by rfl) (by decide) (by norm_num)⟩

theorem computeCutoff_zero (ds : List J) (h : ∀ d ∈ ds, tsKeyRaw d = some 0) :
    computeCutoff ds = 0 := by
  unfold computeCutoff
  induction ds with
  | nil => rfl
  | cons d rest ih =>
    have hd := h d (List.mem_cons_self d rest)
    have hstep : cutoffStep 0 d = 0 := by simp [cutoffStep, hd]
    simp only [List.foldl_cons, hstep]
    exact ih (fun x hx => h x (List.mem_cons_of_mem d hx))

theorem fetchLoop_zero_eq_collectAll :
    ∀ (l : List Submission) (seen : List String),
      fetchLoop 0 seen l = collectAll seen l := by
  intro l
  induction l with
  | nil => intro seen; rfl
  | cons s rest ih =>
    intro seen
    have hb : ¬ ((0 : ℚ) ≠ 0 ∧ s.created_utc ≤ 0) := by
      rintro ⟨h0, -⟩; exact h0 rfl
    simp only [fetchLoop, collectAll, if_neg hb]
    by_cases hs : subKey s ∈ seen
    · rw [if_pos hs, if_pos hs, ih]
    · rw [if_neg hs, if_neg hs, ih]

/-- C10: when every stored record's computed timestamp is `0` (in
particular when the database is empty), the cutoff is `0.0`, which is
falsy, so the fetch loop never early-stops on a timestamp comparison: on
the capped stream it coincides with the no-cutoff reference loop, which
considers every item — including items with `created_utc = 0` — and
appends it exactly when its identity key is unseen. -/
theorem zero_cutoff_no_early_stop (ds : List J) (seen : List String)
    (stream : List Submission)
    (h : ∀ d ∈ ds, tsKeyRaw d = some 0) :
    computeCutoff ds = 0 ∧
    fetchLoop (computeCutoff ds) seen (stream.take MAX_NEW_TO_PULL)
      = collectAll seen (stream.take MAX_NEW_TO_PULL) := by
  have hc := computeCutoff_zero ds h
  exact ⟨hc, by rw [hc, fetchLoop_zero_eq_collectAll]⟩

theorem zero_cutoff_no_early_stop_witness :
    (∀ d ∈ ([] : List J), tsKeyRaw d = some 0) ∧
    (computeCutoff ([] : List J) = 0 ∧
     fetchLoop (computeCutoff ([] : List J)) ["id:z"]
        (([⟨"z", "tz", none, 0, "uz", "pz", 0, "cz", 0, false, none, [], true⟩,
           ⟨"w", "tw", none, 0, "uw", "pw", 0, "cw", 0, false, none, [], true⟩] :
          List Submission).take MAX_NEW_TO_PULL)
       = collectAll ["id:z"]
          (([⟨"z", "tz", none, 0, "uz", "pz", 0, "cz", 0, false, none, [], true⟩,
             ⟨"w", "tw", none, 0, "uw", "pw", 0, "cw", 0, false, none, [], true⟩] :
            List Submission).take MAX_NEW_TO_PULL)) :=
  ⟨fun d hd => absurd hd (List.not_mem_nil d),
   zero_cutoff_no_early_stop [] ["id:z"]
     [⟨"z", "tz", none, 0, "uz", "pz", 0, "cz", 0, false, none, [], true⟩,
      ⟨"w", "tw", none, 0, "uw", "pw", 0, "cw", 0, false, none, [], true⟩]
     (fun d hd => absurd hd (List.not_mem_nil d))⟩

-- ### Sortedness of the saved discussions (C4)

/-- The Python sort key value of a record (the sort raises when
`tsKeyRaw` is `none`; `sortDiscussions` models that separately, so the
default only pads the total function). -/
def tsVal (d : J) : ℚ := (tsKeyRaw d).getD 0

/-- Adjacent-pair check that the discussions are ascending in the Python
sort key. -/
def sortedByCreatedB : List J → Bool
  | [] => true
  | [_] => true
  | a :: b :: t => decide (tsVal a ≤ tsVal b) && sortedByCreatedB (b :: t)

/-- The sortedness invariant: adjacent discussions are ascending in the
Python sort key. -/
def sortedByCreated (l : List J) : Prop := sortedByCreatedB l = true

instance (l : List J) : Decidable (sortedByCreated l) :=
  inferInstanceAs (Decidable (sortedByCreatedB l = true))

theorem sortedByCreated_iff_chain' (l : List J) :
    sortedByCreated l ↔ l.Chain' (fun a b => tsVal a ≤ tsVal b) := by
  induction l with
  | nil => simp [sortedByCreated, sortedByCreatedB]
  | cons a t ih =>
    cases t with
    | nil => simp [sortedByCreated, sortedByCreatedB]
    | cons b t2 =>
      unfold sortedByCreated at ih ⊢
      rw [List.chain'_cons, ← ih]
      simp [sortedByCreatedB]

theorem sortDiscussions_perm (ds m : List J) (h : sortDiscussions ds = some m) :
    m.Perm ds := by
  unfold sortDiscussions at h
  split at h
  · exact (Option.some.inj h) ▸ List.mergeSort_perm ds _
  · exact absurd h (by simp)

theorem sortDiscussions_sorted (ds m : List J) (h : sortDiscussions ds = some m) :
    sortedByCreated m := by
  unfold sortDiscussions at h
  split at h
  · have hm := Option.some.inj h
    subst hm
    have hpw := @List.sorted_mergeSort J
      (fun a b => decide ((tsKeyRaw a).getD 0 ≤ (tsKeyRaw b).getD 0))
      (fun a b c hab hbc => by
        simp only [decide_eq_true_eq] at *
        exact le_trans hab hbc)
      (fun a b => by
        rcases le_total ((tsKeyRaw a).getD 0) ((tsKeyRaw b).getD 0) with h | h <;>
          simp [h])
      ds
    have hpw' : (ds.mergeSort
        (fun a b => decide ((tsKeyRaw a).getD 0 ≤ (tsKeyRaw b).getD 0))).Pairwise
        (fun a b => tsVal a ≤ tsVal b) := by
      refine hpw.imp ?_
      intro a b hab
      simpa [tsVal] using of_decide_eq_true hab
    exact (sortedByCreated_iff_chain' _).mpr hpw'.chain'
  · exact absurd h (by simp)

/-- C4 (amended): if the loaded discussions list is already sorted
ascending by `created_utc`, then the discussions list saved by a pipeline
run is sorted after every save — when new items are found the combined
list is re-sorted, and the zero-new-item save writes the loaded list
unchanged.  (The unamended claim fails for an unsorted loaded state whose
run finds zero new items: that save writes the unsorted list as is; see
the counterexample.) -/
theorem pipeline_save_sorted_of_sorted_load (ds : List J) (stream : List Submission)
    (out : List J) (hs : sortedByCreated ds) (h : runMergePhase ds stream = some out) :
    sortedByCreated out := by
  unfold runMergePhase at h
  split at h
  · exact absurd h (by simp)
  · dsimp only at h
    split at h
    · exact (Option.some.inj h) ▸ hs
    · exact sortDiscussions_sorted _ _ h

theorem pipeline_save_sorted_witness :
    sortedByCreated [J.obj [("id", J.str "a"), ("created_utc", J.num 1)],
                     J.obj [("id", J.str "b"), ("created_utc", J.num 2)]] ∧
    runMergePhase [J.obj [("id", J.str "a"), ("created_utc", J.num 1)],
                   J.obj [("id", J.str "b"), ("created_utc", J.num 2)]] []
      = some [J.obj [("id", J.str "a"), ("created_utc", J.num 1)],
              J.obj [("id", J.str "b"), ("created_utc", J.num 2)]] ∧
    sortedByCreated [J.obj [("id", J.str "a"), ("created_utc", J.num 1)],
                     J.obj [("id", J.str "b"), ("created_utc", J.num 2)]] :=
  ⟨by decide, by rfl,
   pipeline_save_sorted_of_sorted_load
     [J.obj [("id", J.str "a"), ("created_utc", J.num 1)],
      J.obj [("id", J.str "b"), ("created_utc", J.num 2)]] []
     [J.obj [("id", J.str "a"), ("created_utc", J.num 1)],
      J.obj [("id", J.str "b"), ("created_utc", J.num 2)]]
     (by decide) (by rfl)⟩

/-- C4 counterexample: the claim as stated fails.  For the unsorted loaded
state `[{id a, created 2}, {id b, created 1}]` and an empty fetch stream,
the run finds zero new items, and the save triggered by that run (line
210) writes the discussions list unchanged — unsorted. -/
theorem save_unsorted_zero_new_counterexample :
    runMergePhase [J.obj [("id", J.str "a"), ("created_utc", J.num 2)],
                   J.obj [("id", J.str "b"), ("created_utc", J.num 1)]] []
      = some [J.obj [("id", J.str "a"), ("created_utc", J.num 2)],
              J.obj [("id", J.str "b"), ("created_utc", J.num 1)]] ∧
    ¬ sortedByCreated [J.obj [("id", J.str "a"), ("created_utc", J.num 2)],
                       J.obj [("id", J.str "b"), ("created_utc", J.num 1)]] :=
  ⟨by rfl, by decide⟩

-- ### Idempotence of the merge phase (C2)

/-- No two records share an identity key. -/
def dupFreeKeys (l : List J) : Prop :=
  l.Pairwise (fun a b => post_key_from_existing a ≠ post_key_from_existing b)

instance (l : List J) : Decidable (dupFreeKeys l) :=
  List.instDecidablePairwise l

/-- The key `post_key_from_existing` recomputes for a freshly serialized
submission is the loop key of line 199. -/
theorem post_key_serialize (s : Submission) :
    post_key_from_existing (serialize_submission s) = some (subKey s) := by
  by_cases h : s.sid = ""
  · simp [post_key_from_existing, serialize_submission, subKey, dictGetD, dictGet,
      pyTruthy, pyStr, h, pyRepr, reprJFuel, jDepth]
  · simp [post_key_from_existing, serialize_submission, subKey, dictGetD, dictGet,
      pyTruthy, pyStr, h]

theorem fetchLoop_keys (c : ℚ) :
    ∀ (l : List Submission) (seen : List String),
      (fetchLoop c seen l).Pairwise
        (fun a b => post_key_from_existing a ≠ post_key_from_existing b) ∧
      ∀ r ∈ fetchLoop c seen l,
        ∃ k, post_key_from_existing r = some k ∧ k ∉ seen := by
  intro l
  induction l with
  | nil => exact fun seen => ⟨List.Pairwise.nil, by simp [fetchLoop]⟩
  | cons s rest ih =>
    intro seen
    by_cases hb : c ≠ 0 ∧ s.created_utc ≤ c
    · refine ⟨?_, ?_⟩ <;> simp [fetchLoop, hb]
    · by_cases hs : subKey s ∈ seen
      · have e : fetchLoop c seen (s :: rest) = fetchLoop c seen rest := by
          simp only [fetchLoop, if_neg hb, if_pos hs]
        rw [e]; exact ih seen
      · have e : fetchLoop c seen (s :: rest)
            = serialize_submission s :: fetchLoop c (subKey s :: seen) rest := by
          simp only [fetchLoop, if_neg hb, if_neg hs]
        rw [e]
        obtain ⟨ihp, ihm⟩ := ih (subKey s :: seen)
        refine ⟨List.Pairwise.cons ?_ ihp, ?_⟩
        · intro r hr
          obtain ⟨k, hk, hkn⟩ := ihm r hr
          rw [post_key_serialize, hk]
          intro heq
          exact hkn ((Option.some.inj heq).symm ▸ List.mem_cons_self _ _)
        · intro r hr
          rcases List.mem_cons.mp hr with h | h
          · exact ⟨subKey s, h ▸ post_key_serialize s, hs⟩
          · obtain ⟨k, hk, hkn⟩ := ihm r h
            exact ⟨k, hk, fun hmem => hkn (List.mem_cons_of_mem _ hmem)⟩

/-- Re-running the fetch loop with a larger cutoff and a seen set that
covers the old seen set and every key the first run emitted yields no new
items. -/
theorem fetchLoop_rerun_nil (c₁ c₂ : ℚ) (h0 : 0 ≤ c₁) (h12 : c₁ ≤ c₂) :
    ∀ (l : List Submission) (s₁ s₂ : List String),
      (∀ k ∈ s₁, k ∈ s₂) →
      (∀ r ∈ fetchLoop c₁ s₁ l, ∀ k, post_key_from_existing r = some k → k ∈ s₂) →
      fetchLoop c₂ s₂ l = [] := by
  intro l
  induction l with
  | nil => intro s₁ s₂ _ _; rfl
  | cons s rest ih =>
    intro s₁ s₂ hks hnew
    by_cases hb2 : c₂ ≠ 0 ∧ s.created_utc ≤ c₂
    · simp only [fetchLoop, if_pos hb2]
    · have hb1 : ¬ (c₁ ≠ 0 ∧ s.created_utc ≤ c₁) := by
        rintro ⟨hne, hle⟩
        have hpos : (0 : ℚ) < c₁ := lt_of_le_of_ne h0 (Ne.symm hne)
        exact hb2 ⟨ne_of_gt (lt_of_lt_of_le hpos h12), le_trans hle h12⟩
      have hmem : subKey s ∈ s₂ := by
        by_cases hs : subKey s ∈ s₁
        · exact hks _ hs
        · refine hnew (serialize_submission s) ?_ (subKey s) (post_key_serialize s)
          have e : fetchLoop c₁ s₁ (s :: rest)
              = serialize_submission s :: fetchLoop c₁ (subKey s :: s₁) rest := by
            simp only [fetchLoop, if_neg hb1, if_neg hs]
          rw [e]; exact List.mem_cons_self _ _
      simp only [fetchLoop, if_neg hb2, if_pos hmem]
      by_cases hs : subKey s ∈ s₁
      · refine ih s₁ s₂ hks ?_
        intro r hr k hk
        refine hnew r ?_ k hk
        have e : fetchLoop c₁ s₁ (s :: rest) = fetchLoop c₁ s₁ rest := by
          simp only [fetchLoop, if_neg hb1, if_pos hs]
        rw [e]; exact hr
      · refine ih (subKey s :: s₁) s₂ ?_ ?_
        · intro k hk
          rcases List.mem_cons.mp hk with h | h
          · exact h ▸ hmem
          · exact hks _ h
        · intro r hr k hk
          refine hnew r ?_ k hk
          have e : fetchLoop c₁ s₁ (s :: rest)
              = serialize_submission s :: fetchLoop c₁ (subKey s :: s₁) rest := by
            simp only [fetchLoop, if_neg hb1, if_neg hs]
          rw [e]; exact List.mem_cons_of_mem _ hr

theorem cutoffStep_le (c : ℚ) (d : J) : c ≤ cutoffStep c d := by
  unfold cutoffStep
  split
  · split
    · exact le_of_lt (by assumption)
    · exact le_refl c
  · exact le_refl c

theorem le_foldl_cutoffStep : ∀ (l : List J) (c : ℚ), c ≤ l.foldl cutoffStep c := by
  intro l
  induction l with
  | nil => exact fun c => le_refl c
  | cons d rest ih =>
    intro c
    exact le_trans (cutoffStep_le c d) (ih (cutoffStep c d))

theorem computeCutoff_nonneg (ds : List J) : 0 ≤ computeCutoff ds :=
  le_foldl_cutoffStep ds 0

theorem computeCutoff_le_append (ds new : List J) :
    computeCutoff ds ≤ computeCutoff (ds ++ new) := by
  unfold computeCutoff
  rw [List.foldl_append]
  exact le_foldl_cutoffStep new _

theorem cutoffStep_rcomm (c : ℚ) (a b : J) :
    cutoffStep (cutoffStep c a) b = cutoffStep (cutoffStep c b) a := by
  unfold cutoffStep
  rcases h1 : tsKeyRaw a with _ | ta <;> rcases h2 : tsKeyRaw b with _ | tb <;>
    simp only []
  split_ifs <;> first | rfl | linarith

theorem computeCutoff_perm (l₁ l₂ : List J) (h : l₁.Perm l₂) :
    computeCutoff l₁ = computeCutoff l₂ :=
  h.foldl_eq' (fun x _ y _ z => cutoffStep_rcomm z x y) 0

theorem keysOf_mem (l : List J) (ks : List String) (h : keysOf l = some ks)
    (d : J) (hd : d ∈ l) :
    ∃ k, post_key_from_existing d = some k ∧ k ∈ ks := by
  induction l generalizing ks with
  | nil => exact absurd hd (List.not_mem_nil d)
  | cons x rest ih =>
    unfold keysOf at h
    split at h
    next k ks' hk hrest =>
      have hks := Option.some.inj h
      rcases List.mem_cons.mp hd with he | he
      · exact ⟨k, he ▸ hk, hks ▸ List.mem_cons_self _ _⟩
      · obtain ⟨k', hk', hk'mem⟩ := ih ks' hrest he
        exact ⟨k', hk', hks ▸ List.mem_cons_of_mem _ hk'mem⟩
    next => exact absurd h (by simp)

theorem keysOf_mem_rev (l : List J) (ks : List String) (h : keysOf l = some ks)
    (k : String) (hk : k ∈ ks) :
    ∃ d ∈ l, post_key_from_existing d = some k := by
  induction l generalizing ks with
  | nil =>
    unfold keysOf at h
    rw [← Option.some.inj h] at hk
    exact absurd hk (List.not_mem_nil k)
  | cons x rest ih =>
    unfold keysOf at h
    split at h
    next k0 ks' hk0 hrest =>
      have hks := Option.some.inj h
      rw [← hks] at hk
      rcases List.mem_cons.mp hk with he | he
      · exact ⟨x, List.mem_cons_self _ _, he ▸ hk0⟩
      · obtain ⟨d, hd, hdk⟩ := ih ks' hrest he
        exact ⟨d, List.mem_cons_of_mem _ hd, hdk⟩
    next => exact absurd h (by simp)

theorem keysOf_isSome (l : List J)
    (h : ∀ d ∈ l, (post_key_from_existing d).isSome) :
    ∃ ks, keysOf l = some ks := by
  induction l with
  | nil => exact ⟨[], rfl⟩
  | cons x rest ih =>
    obtain ⟨k, hk⟩ := Option.isSome_iff_exists.mp (h x (List.mem_cons_self x rest))
    obtain ⟨ks, hks⟩ := ih (fun d hd => h d (List.mem_cons_of_mem x hd))
    exact ⟨k :: ks, by unfold keysOf; rw [hk, hks]⟩

/-- C2 (amended): assuming the existing records have pairwise-distinct
identity keys (the invariant the pipeline maintains), a successful merge
phase yields a result with no duplicate identity keys, and applying the
merge phase a second time with the same batch returns that result
unchanged — in particular the same record count.  (The unamended claim
quantifies over every existing record list; it fails when the existing
list itself already contains duplicate keys, which the merge never
removes; see the counterexample.) -/
theorem merge_twice_idempotent_of_nodup_keys (ds : List J) (batch : List Submission)
    (m : List J) (hnodup : dupFreeKeys ds) (h : runMergePhase ds batch = some m) :
    dupFreeKeys m ∧ runMergePhase m batch = some m := by
  rcases hk : keysOf ds with _ | seen
  · unfold runMergePhase at h
    rw [hk] at h
    exact absurd h (by simp)
  · unfold runMergePhase at h
    rw [hk] at h
    dsimp only at h
    by_cases he : (fetchLoop (computeCutoff ds) seen (batch.take MAX_NEW_TO_PULL)).isEmpty
    · rw [if_pos he] at h
      obtain rfl : ds = m := Option.some.inj h
      refine ⟨hnodup, ?_⟩
      unfold runMergePhase
      rw [hk]
      dsimp only
      rw [if_pos he]
    · rw [if_neg he] at h
      have hperm : m.Perm (ds ++ fetchLoop (computeCutoff ds) seen (batch.take MAX_NEW_TO_PULL)) :=
        sortDiscussions_perm _ _ h
      obtain ⟨hpw_new, hmem_new⟩ :=
        fetchLoop_keys (computeCutoff ds) (batch.take MAX_NEW_TO_PULL) seen
      have hcross : ∀ a ∈ ds, ∀ b ∈ fetchLoop (computeCutoff ds) seen (batch.take MAX_NEW_TO_PULL),
          post_key_from_existing a ≠ post_key_from_existing b := by
        intro a ha b hb
        obtain ⟨ka, hka, hkamem⟩ := keysOf_mem ds seen hk a ha
        obtain ⟨kb, hkb, hkbn⟩ := hmem_new b hb
        rw [hka, hkb]
        intro he2
        exact hkbn ((Option.some.inj he2) ▸ hkamem)
      have hdf : dupFreeKeys
          (ds ++ fetchLoop (computeCutoff ds) seen (batch.take MAX_NEW_TO_PULL)) :=
        (List.pairwise_append).mpr ⟨hnodup, hpw_new, hcross⟩
      have hdfm : dupFreeKeys m :=
        (hperm.pairwise_iff (fun hxy => Ne.symm hxy)).mpr hdf
      have hall : ∀ d ∈ m, (post_key_from_existing d).isSome := by
        intro d hd
        rcases List.mem_append.mp (hperm.mem_iff.mp hd) with hds | hnw
        · obtain ⟨k, hk2, -⟩ := keysOf_mem ds seen hk d hds
          simp [hk2]
        · obtain ⟨k, hk2, -⟩ := hmem_new d hnw
          simp [hk2]
      obtain ⟨km, hkm⟩ := keysOf_isSome m hall
      have hsub : ∀ k ∈ seen, k ∈ km := by
        intro k hkmem
        obtain ⟨d, hd, hdk⟩ := keysOf_mem_rev ds seen hk k hkmem
        have hdm : d ∈ m := hperm.mem_iff.mpr (List.mem_append.mpr (Or.inl hd))
        obtain ⟨k', hk', hk'mem⟩ := keysOf_mem m km hkm d hdm
        rw [hdk] at hk'
        exact (Option.some.inj hk') ▸ hk'mem
      have hnewsub : ∀ r ∈ fetchLoop (computeCutoff ds) seen (batch.take MAX_NEW_TO_PULL),
          ∀ k, post_key_from_existing r = some k → k ∈ km := by
        intro r hr k hkr
        have hrm : r ∈ m := hperm.mem_iff.mpr (List.mem_append.mpr (Or.inr hr))
        obtain ⟨k', hk', hk'mem⟩ := keysOf_mem m km hkm r hrm
        rw [hkr] at hk'
        exact (Option.some.inj hk') ▸ hk'mem
      have hcle : computeCutoff ds ≤ computeCutoff m := by
        calc computeCutoff ds
            ≤ computeCutoff (ds ++ fetchLoop (computeCutoff ds) seen (batch.take MAX_NEW_TO_PULL)) :=
              computeCutoff_le_append _ _
          _ = computeCutoff m := (computeCutoff_perm _ _ hperm).symm
      have hloop2 : fetchLoop (computeCutoff m) km (batch.take MAX_NEW_TO_PULL) = [] :=
        fetchLoop_rerun_nil (computeCutoff ds) (computeCutoff m)
          (computeCutoff_nonneg ds) hcle (batch.take MAX_NEW_TO_PULL) seen km hsub hnewsub
      refine ⟨hdfm, ?_⟩
      unfold runMergePhase
      rw [hkm]
      dsimp only
      rw [hloop2]
      simp

/-- C2 counterexample: the claim as stated fails for an existing record
list that already contains duplicate identity keys.  With two stored
copies of the record keyed `id:x` and a batch holding a fresh submission
with the same id (skipped by the seen-set), the merge — applied once or
twice — returns the stored list unchanged, which has a duplicate
identity key. -/
theorem merge_twice_dup_keys_counterexample :
    runMergePhase [J.obj [("id", J.str "x"), ("created_utc", J.num 1)],
                   J.obj [("id", J.str "x"), ("created_utc", J.num 1)]]
        [⟨"x", "t", none, 0, "u", "p", 2, "c", 0, false, none, [], true⟩]
      = some [J.obj [("id", J.str "x"), ("created_utc", J.num 1)],
              J.obj [("id", J.str "x"), ("created_utc", J.num 1)]] ∧
    ¬ dupFreeKeys [J.obj [("id", J.str "x"), ("created_utc", J.num 1)],
                   J.obj [("id", J.str "x"), ("created_utc", J.num 1)]] :=
  ⟨by rfl, by decide⟩

theorem merge_twice_idempotent_witness :
    dupFreeKeys [J.obj [("id", J.str "a"), ("created_utc", J.num 1)]] ∧
    runMergePhase [J.obj [("id", J.str "a"), ("created_utc", J.num 1)]] []
      = some [J.obj [("id", J.str "a"), ("created_utc", J.num 1)]] ∧
    (dupFreeKeys [J.obj [("id", J.str "a"), ("created_utc", J.num 1)]] ∧
     runMergePhase [J.obj [("id", J.str "a"), ("created_utc", J.num 1)]] []
       = some [J.obj [("id", J.str "a"), ("created_utc", J.num 1)]]) :=
  ⟨by decide, by rfl,
   merge_twice_idempotent_of_nodup_keys
     [J.obj [("id", J.str "a"), ("created_utc", J.num 1)]] []
     [J.obj [("id", J.str "a"), ("created_utc", J.num 1)]]
     (by decide) (by rfl)⟩
